import Mathlib

/-!
Shallow embedding of the team / invitation / task core of the
task-management application (`src/tasks/models.py`, `src/tasks/views.py`,
`src/tasks/forms.py`).

The persistent store is modelled as an explicit `DB` record holding the
Users, Teams, the team-membership join table, Invitations and Tasks.
Every mutating operation returns the possibly-mutated `DB` next to its
outcome (`Except Err α × DB`): Django runs these methods without a
surrounding transaction, so state mutated before an exception persists.
Python values that may be either a username string or a `User` object
(duck typing in `Team.remove_member` / `Team.send_invitation`) are
modelled by `PyVal`.
-/

namespace TaskApp

/-- A user row: `User` in models.py (only the fields the core logic reads). -/
structure User where
  id : Nat
  username : String
deriving DecidableEq, Repr

/-- A team row: `Team` in models.py.  The many-to-many `members` relation
lives in the separate join table `DB.memberships`, keyed by the team id,
exactly like Django's M2M table. -/
structure Team where
  id : Nat
  name : String
  description : String
  owner : Nat
deriving DecidableEq, Repr

/-- An invitation row: `Invitation` in models.py.  Existence of the row is
the pending state; there is no status field. -/
structure Invitation where
  id : Nat
  sender : Nat
  recipient : Nat
  team : Nat
  message : String
deriving DecidableEq, Repr

/-- `Task.TaskStatus` choices in models.py. -/
inductive TaskStatus where
  | notStarted
  | inProgress
  | complete
deriving DecidableEq, Repr

/-- A task row: `Task` in models.py.  Dates are modelled as integers. -/
structure Task where
  id : Nat
  title : String
  description : String
  dueDate : Int
  assignedTo : Nat
  team : Nat
  status : TaskStatus
  priority : Int
deriving DecidableEq, Repr

/-- The persistent store: one list per table plus the M2M join table for
team membership and fresh-id counters for rows created by the code. -/
structure DB where
  users : List User
  teams : List Team
  memberships : List (Nat × Nat)
  invitations : List Invitation
  tasks : List Task
  nextTeamId : Nat
  nextInvitationId : Nat
  nextTaskId : Nat
deriving DecidableEq, Repr

/-- The exceptions the embedded code can raise: Django's
`User.DoesNotExist` / `Team.DoesNotExist`, the database `IntegrityError`
raised by the `unique_together` constraint, `PermissionDenied`,
`ValidationError`, and Python's `AttributeError`. -/
inductive Err where
  | doesNotExist
  | integrityError
  | permissionDenied (msg : String)
  | validationError (msg : String)
  | attributeError (attr : String)
deriving DecidableEq, Repr

/-- A Python value that is either a plain username string or a `User`
object.  `Team.remove_member` and `Team.send_invitation` are called with
both shapes in the source. -/
inductive PyVal where
  | str (s : String)
  | user (u : User)
deriving DecidableEq, Repr

/-- The string Django uses as lookup key for `User.objects.get(username=x)`:
a string is used as is, a `User` object is coerced through `str(user)`,
which `AbstractUser.__str__` defines as the username. -/
def PyVal.usernameKey : PyVal → String
  | .str s => s
  | .user u => u.username

/-- Reading `.id` off a Python value: succeeds on a `User` object, raises
`AttributeError` on a plain string. -/
def PyVal.idAttr : PyVal → Except Err Nat
  | .str _ => .error (.attributeError "id")
  | .user u => .ok u.id

/-- `User.objects.get(username=s)` returning `none` for `DoesNotExist`. -/
def findUser (db : DB) (username : String) : Option User :=
  db.users.find? (fun u => u.username == username)

/-- `User.objects.get(username=x)` where `x` may be a string or a `User`
object (coerced through its username). -/
def getUserByUsername (db : DB) (v : PyVal) : Option User :=
  findUser db v.usernameKey

/-- `Team.objects.get(id=pk)` returning `none` for `DoesNotExist`. -/
def findTeam (db : DB) (pk : Nat) : Option Team :=
  db.teams.find? (fun r => r.id == pk)

/-- `team.members.all()` as the list of user ids joined to the team id. -/
def teamMembers (db : DB) (teamId : Nat) : List Nat :=
  (db.memberships.filter (fun m => m.1 == teamId)).map (fun m => m.2)

/-- `team.members.add(user)`: Django's M2M `add` is a no-op when the pair
is already present. -/
def addMembership (db : DB) (teamId userId : Nat) : DB :=
  if (teamId, userId) ∈ db.memberships then db
  else { db with memberships := db.memberships ++ [(teamId, userId)] }

/-- `team.save()` on an already-persisted team: update the row(s) with the
team's id to the in-memory field values. -/
def saveTeam (db : DB) (t : Team) : DB :=
  { db with teams := db.teams.map (fun r => if r.id == t.id then t else r) }

/-- Embeds `Team.remove_task` (models.py lines 129-132): deletes the tasks
of this team assigned to `member`.  Reads `member.id`, which raises
`AttributeError` when `member` is a plain string. -/
def Team.remove_task (db : DB) (t : Team) (member : PyVal) : Except Err Unit × DB :=
  match member.idAttr with
  | .error e => (.error e, db)
  | .ok mid =>
      (.ok (), { db with
        tasks := db.tasks.filter (fun task => !(task.assignedTo == mid && task.team == t.id)) })

/-- Embeds `Team.remove_member` (models.py lines 61-72). -/
def Team.remove_member (db : DB) (t : Team) (username : PyVal) : Except Err Bool × DB :=
  match getUserByUsername db username with
  | none => (.error .doesNotExist, db)
  | some user =>
      if user.id ∈ teamMembers db t.id then
        if t.owner = user.id then
          (.ok false, db)
        else
          match Team.remove_task db t username with
          | (.error e, db1) => (.error e, db1)
          | (.ok _, db1) =>
              (.ok true, { db1 with
                memberships := db1.memberships.filter
                  (fun m => !(m.1 == t.id && m.2 == user.id)) })
      else
        (.ok false, db)

/-- Embeds `Team.delete_team` (models.py lines 74-80): `self.delete()`
cascades to the team's invitations and tasks (their `team` foreign keys
are `on_delete=CASCADE`) and clears the membership join rows. -/
def Team.delete_team (db : DB) (t : Team) (user : User) : Except Err Bool × DB :=
  if t.owner = user.id then
    (.ok true, { db with
      teams := db.teams.filter (fun r => !(r.id == t.id)),
      memberships := db.memberships.filter (fun m => !(m.1 == t.id)),
      invitations := db.invitations.filter (fun i => !(i.team == t.id)),
      tasks := db.tasks.filter (fun task => !(task.team == t.id)) })
  else
    (.ok false, db)

/-- Embeds `Team.send_invitation` (models.py lines 82-96).  The only check
performed is recipient-already-a-member (returns `false`); the two
`User.objects.get` calls raise `DoesNotExist` for unresolved usernames,
and `Invitation.objects.create` raises `IntegrityError` when the
`unique_together ['recipient', 'team']` constraint is violated.
`Invitation.clean` is never invoked on this path. -/
def Team.send_invitation (db : DB) (t : Team) (sender_username recipient_username : PyVal)
    (message : Option String) : Except Err Bool × DB :=
  match getUserByUsername db sender_username with
  | none => (.error .doesNotExist, db)
  | some sender =>
      match getUserByUsername db recipient_username with
      | none => (.error .doesNotExist, db)
      | some recipient =>
          if recipient.id ∈ teamMembers db t.id then
            (.ok false, db)
          else
            let msg := message.getD ""
            if db.invitations.any (fun i => i.recipient == recipient.id && i.team == t.id) then
              (.error .integrityError, db)
            else
              (.ok true, { db with
                invitations := db.invitations ++
                  [{ id := db.nextInvitationId, sender := sender.id,
                     recipient := recipient.id, team := t.id, message := msg }],
                nextInvitationId := db.nextInvitationId + 1 })

/-- The `for member in members: team.send_invitation(owner, member, message)`
loop shared by `Team.create_team` and `Team.edit_team`; an exception from
one send aborts the loop but keeps the mutations already made. -/
def sendInvitationLoop (db : DB) (t : Team) (sender_username : PyVal)
    (members : List PyVal) (message : Option String) : Except Err Unit × DB :=
  match members with
  | [] => (.ok (), db)
  | m :: rest =>
      match Team.send_invitation db t sender_username m message with
      | (.error e, db1) => (.error e, db1)
      | (.ok _, db1) => sendInvitationLoop db1 t sender_username rest message

/-- The `for member in remove_members: team.remove_member(member)` loop of
`Team.edit_team`. -/
def removeMemberLoop (db : DB) (t : Team) (members : List PyVal) : Except Err Unit × DB :=
  match members with
  | [] => (.ok (), db)
  | m :: rest =>
      match Team.remove_member db t m with
      | (.error e, db1) => (.error e, db1)
      | (.ok _, db1) => removeMemberLoop db1 t rest

/-- Embeds `Team.create_team` (models.py lines 98-107): save the team,
send the invitations (with the owner object as sender), and only then add
the owner to the member set. -/
def Team.create_team (db : DB) (name description : String) (owner : User)
    (members : Option (List PyVal)) (message : Option String) : Except Err Team × DB :=
  let team : Team := { id := db.nextTeamId, name := name,
                       description := description, owner := owner.id }
  let db1 : DB := { db with teams := db.teams ++ [team], nextTeamId := db.nextTeamId + 1 }
  match sendInvitationLoop db1 team (.user owner) (members.getD []) message with
  | (.error e, db2) => (.error e, db2)
  | (.ok _, db2) => (.ok team, addMembership db2 team.id owner.id)

/-- Embeds `Team.edit_team` (models.py lines 113-127): resolve the acting
owner and the team, set name and description on the object, run the
invitation and removal loops, and persist with `team.save()` at the end.
No comparison of the acting owner against `team.owner` is performed. -/
def Team.edit_team (db : DB) (pk : Nat) (owner_username : PyVal)
    (new_name new_description : String) (members : Option (List PyVal))
    (message : Option String) (remove_members : Option (List PyVal)) :
    Except Err Team × DB :=
  match getUserByUsername db owner_username with
  | none => (.error .doesNotExist, db)
  | some owner =>
      match findTeam db pk with
      | none => (.error .doesNotExist, db)
      | some team0 =>
          let team : Team := { team0 with name := new_name, description := new_description }
          match sendInvitationLoop db team (.user owner) (members.getD []) message with
          | (.error e, db1) => (.error e, db1)
          | (.ok _, db1) =>
              match removeMemberLoop db1 team (remove_members.getD []) with
              | (.error e, db2) => (.error e, db2)
              | (.ok _, db2) => (.ok team, saveTeam db2 team)

/-- Embeds `Invitation.accept_invitation` (models.py lines 147-152). -/
def Invitation.accept_invitation (db : DB) (inv : Invitation) (user : User) :
    Except Err Unit × DB :=
  if user.id ≠ inv.recipient then
    (.error (.permissionDenied "Only the recipient can accept this invitation."), db)
  else
    let db1 := addMembership db inv.team inv.recipient
    (.ok (), { db1 with invitations := db1.invitations.filter (fun i => !(i.id == inv.id)) })

/-- Embeds `Invitation.decline_invitation` (models.py lines 154-158). -/
def Invitation.decline_invitation (db : DB) (inv : Invitation) (user : User) :
    Except Err Unit × DB :=
  if user.id ≠ inv.recipient then
    (.error (.permissionDenied "Only the recipient can decline this invitation."), db)
  else
    (.ok (), { db with invitations := db.invitations.filter (fun i => !(i.id == inv.id)) })

/-- Embeds `Invitation.clean` (models.py lines 160-168): the model-level
validation that would reject sender-not-owner, self-invitation, and
recipient-already-a-member.  It is only run when `full_clean` is called
explicitly (the model tests do); `Team.send_invitation` bypasses it. -/
def Invitation.clean (db : DB) (inv : Invitation) : Except Err Unit :=
  match findTeam db inv.team, db.users.find? (fun u => u.id == inv.sender),
        db.users.find? (fun u => u.id == inv.recipient) with
  | some team, some sender, some recipient =>
      if sender.id ≠ team.owner then
        .error (.validationError "The sender must be the team owner.")
      else if sender.username = recipient.username then
        .error (.validationError "Sender and recipient cannot be the same user.")
      else if recipient.id ∈ teamMembers db team.id then
        .error (.validationError "The recipient is already a part of this team.")
      else
        .ok ()
  | _, _, _ => .error .doesNotExist

/-- Embeds `Task.validate_due_date_not_in_past` (models.py lines 187-190):
raises `ValidationError` exactly when the value is strictly before `now`. -/
def validate_due_date_not_in_past (now value : Int) : Except Err Unit :=
  if value < now then .error (.validationError "Due date must be in the future.") else .ok ()

/-- The `RegexValidator` pattern of the title field, matching iff the
string contains at least one ASCII letter. -/
def hasLetter (s : String) : Bool :=
  s.data.any (fun c => c.isAlpha)

/-- The validation `CreateTaskForm.is_valid()` runs before a task is
saved: the model field validators (title non-blank, title regex, title
and description max lengths, the due-date validator, the priority
`MinValueValidator(1)` / `MaxValueValidator(5)`) together with the
assignee-must-be-a-team-member check done both by `CreateTaskForm.clean`
and by `Task.clean`. -/
def createTaskValid (db : DB) (now : Int) (title description : String)
    (dueDate : Int) (assignedTo : Nat) (teamId : Nat) (priority : Int) : Bool :=
  (title.length != 0) && decide (title.length ≤ 50) && hasLetter title &&
  decide (description.length ≤ 500) &&
  (match validate_due_date_not_in_past now dueDate with
   | .ok _ => true
   | .error _ => false) &&
  decide (1 ≤ priority) && decide (priority ≤ 5) &&
  decide (assignedTo ∈ teamMembers db teamId)

/-- Embeds `CreateTaskView.post` (views.py lines 207-220): validate the
form and, when it is valid, save a task row for the team. -/
def create_task (db : DB) (now : Int) (title description : String) (dueDate : Int)
    (assignedTo : Nat) (t : Team) (status : TaskStatus) (priority : Int) :
    Except Err Task × DB :=
  if createTaskValid db now title description dueDate assignedTo t.id priority then
    let task : Task := { id := db.nextTaskId, title := title, description := description,
                         dueDate := dueDate, assignedTo := assignedTo, team := t.id,
                         status := status, priority := priority }
    (.ok task, { db with tasks := db.tasks ++ [task], nextTaskId := db.nextTaskId + 1 })
  else
    (.error (.validationError "invalid task"), db)

/-- Embeds the guard of `EditTeamView.dispatch` (views.py lines 370-380):
the request is let through when the team exists and the acting user is
any member of it; the team's owner is never consulted. -/
def EditTeamView.dispatch_allows (db : DB) (pk : Nat) (user : User) : Bool :=
  match findTeam db pk with
  | none => false
  | some t => decide (user.id ∈ teamMembers db t.id)

/-- Embeds the `leave_team` branch of `TeamDetailView.post` (views.py
lines 345-354): the success message when `remove_member` returns true,
the error message "Owner cannot leave the team." whenever it returns
false (for any reason), and exception propagation otherwise. -/
def TeamDetailView.post_leave_team (db : DB) (t : Team) (user : User) :
    Except Err String × DB :=
  match Team.remove_member db t (.user user) with
  | (.ok true, db1) => (.ok "You have left the team.", db1)
  | (.ok false, db1) => (.ok "Owner cannot leave the team.", db1)
  | (.error e, db1) => (.error e, db1)

/-! Concrete fixture data used by witnesses and counterexamples. -/

/-- Fixture user: owner of team 10. -/
def alice : User := { id := 1, username := "@alice" }

/-- Fixture user: plain member of team 10. -/
def bob : User := { id := 2, username := "@bob" }

/-- Fixture user: owner of team 20, not a member of team 10. -/
def carol : User := { id := 3, username := "@carol" }

/-- Fixture user: not a member of any team; has a pending invitation to team 10. -/
def dave : User := { id := 4, username := "@dave" }

/-- Fixture team owned by alice with members alice and bob. -/
def teamAlpha : Team := { id := 10, name := "Alpha", description := "first", owner := 1 }

/-- Fixture team owned by carol with sole member carol. -/
def teamBeta : Team := { id := 20, name := "Beta", description := "second", owner := 3 }

/-- The fixture database. -/
def dbFix : DB :=
  { users := [alice, bob, carol, dave],
    teams := [teamAlpha, teamBeta],
    memberships := [(10, 1), (10, 2), (20, 3)],
    invitations := [{ id := 100, sender := 1, recipient := 4, team := 10, message := "join" }],
    tasks :=
      [{ id := 200, title := "Task one", description := "", dueDate := 5000,
         assignedTo := 2, team := 10, status := .notStarted, priority := 1 },
       { id := 201, title := "Task two", description := "", dueDate := 5000,
         assignedTo := 1, team := 10, status := .inProgress, priority := 2 },
       { id := 202, title := "Task three", description := "", dueDate := 5000,
         assignedTo := 3, team := 20, status := .notStarted, priority := 3 }],
    nextTeamId := 30,
    nextInvitationId := 101,
    nextTaskId := 203 }

/-! Basic lemmas about the store. -/

/-- Membership in `teamMembers` is membership of the join pair. -/
theorem mem_teamMembers {db : DB} {tid uid : Nat} :
    uid ∈ teamMembers db tid ↔ (tid, uid) ∈ db.memberships := by
  constructor
  · intro h
    simp only [teamMembers, List.mem_map, List.mem_filter, beq_iff_eq] at h
    obtain ⟨⟨a, b⟩, ⟨hm, ht⟩, hu⟩ := h
    simp only at ht hu
    subst ht; subst hu; exact hm
  · intro h
    simp only [teamMembers, List.mem_map, List.mem_filter, beq_iff_eq]
    exact ⟨(tid, uid), ⟨h, rfl⟩, rfl⟩

/-- The join pairs after `addMembership` are the old ones plus the new pair. -/
theorem mem_addMembership {db : DB} {tid uid : Nat} {p : Nat × Nat} :
    p ∈ (addMembership db tid uid).memberships ↔ p ∈ db.memberships ∨ p = (tid, uid) := by
  unfold addMembership
  split
  · rename_i h
    constructor
    · exact fun hp => Or.inl hp
    · rintro (hp | rfl)
      · exact hp
      · exact h
  · simp [List.mem_append]

/-- `addMembership` touches only the membership table. -/
theorem addMembership_frame (db : DB) (tid uid : Nat) :
    (addMembership db tid uid).users = db.users ∧
    (addMembership db tid uid).teams = db.teams ∧
    (addMembership db tid uid).invitations = db.invitations ∧
    (addMembership db tid uid).tasks = db.tasks := by
  unfold addMembership
  split <;> exact ⟨rfl, rfl, rfl, rfl⟩

/-!
C4 — acceptInvitation: permission check and atomic effect.
-/

/-- C4: `acceptInvitation` fails with `PermissionDenied` for every acting
user other than the invitation's recipient, leaving the store unchanged;
when the acting user is the recipient it adds the recipient to the team's
members and deletes the invitation in the same transition (both effects
in one resulting state), changing nothing else. -/
theorem acceptInvitation_permission_and_atomicity (db : DB) (inv : Invitation) (user : User) :
    (user.id ≠ inv.recipient →
      Invitation.accept_invitation db inv user =
        (.error (.permissionDenied "Only the recipient can accept this invitation."), db)) ∧
    (user.id = inv.recipient →
      ∃ db', Invitation.accept_invitation db inv user = (.ok (), db') ∧
        inv.recipient ∈ teamMembers db' inv.team ∧
        (∀ i, i ∈ db'.invitations ↔ i ∈ db.invitations ∧ i.id ≠ inv.id) ∧
        (∀ p, p ∈ db'.memberships ↔ p ∈ db.memberships ∨ p = (inv.team, inv.recipient)) ∧
        db'.teams = db.teams ∧ db'.tasks = db.tasks ∧ db'.users = db.users) := by
  constructor
  · intro h
    simp [Invitation.accept_invitation, h]
  · intro h
    have heq : Invitation.accept_invitation db inv user =
        (.ok (), { addMembership db inv.team inv.recipient with
          invitations := (addMembership db inv.team inv.recipient).invitations.filter
            (fun i => !(i.id == inv.id)) }) := by
      simp [Invitation.accept_invitation, h]
    refine ⟨_, heq, ?_, ?_, ?_, ?_, ?_, ?_⟩
    · rw [mem_teamMembers]
      exact mem_addMembership.mpr (Or.inr rfl)
    · intro i
      have hfr := (addMembership_frame db inv.team inv.recipient).2.2.1
      constructor
      · intro hi
        rw [List.mem_filter] at hi
        refine ⟨hfr ▸ hi.1, ?_⟩
        simpa using hi.2
      · intro hi
        rw [List.mem_filter]
        refine ⟨hfr ▸ hi.1, ?_⟩
        simpa using hi.2
    · exact fun p => mem_addMembership
    · exact (addMembership_frame db inv.team inv.recipient).2.1
    · exact (addMembership_frame db inv.team inv.recipient).2.2.2
    · exact (addMembership_frame db inv.team inv.recipient).1

/-- C4 witness: on the fixture store, accepting as a non-recipient is
denied, and accepting as the recipient adds the member and removes the
invitation. -/
theorem acceptInvitation_permission_and_atomicity_witness :
    (Invitation.accept_invitation dbFix
        { id := 100, sender := 1, recipient := 4, team := 10, message := "join" } bob =
      (.error (.permissionDenied "Only the recipient can accept this invitation."), dbFix)) ∧
    (4 : Nat) ∈ teamMembers
      (Invitation.accept_invitation dbFix
        { id := 100, sender := 1, recipient := 4, team := 10, message := "join" } dave).2 10 := by
  constructor
  · exact (acceptInvitation_permission_and_atomicity dbFix
      { id := 100, sender := 1, recipient := 4, team := 10, message := "join" } bob).1
      (by decide)
  · obtain ⟨db', heq, hmem, -⟩ := (acceptInvitation_permission_and_atomicity dbFix
      { id := 100, sender := 1, recipient := 4, team := 10, message := "join" } dave).2 rfl
    rw [show (Invitation.accept_invitation dbFix
        { id := 100, sender := 1, recipient := 4, team := 10, message := "join" } dave).2 = db'
      from by rw [heq]]
    exact hmem

/-!
C6 — removeMember on a `User` argument: failure conditions and exact
task cascade.
-/

/-- C6: with the member passed as a `User` object (as the working call
sites do), `remove_member` returns `false` exactly when the user is not a
current member or is the owner; otherwise it deletes exactly the tasks of
this team assigned to this member, removes the membership pair, returns
`true`, and changes nothing else.  The hypothesis says the username
lookup resolves back to the same user (usernames are unique). -/
theorem removeMember_returns_and_cascade (db : DB) (t : Team) (u : User)
    (hres : getUserByUsername db (.user u) = some u) :
    (u.id ∉ teamMembers db t.id → Team.remove_member db t (.user u) = (.ok false, db)) ∧
    (u.id ∈ teamMembers db t.id → t.owner = u.id →
      Team.remove_member db t (.user u) = (.ok false, db)) ∧
    (u.id ∈ teamMembers db t.id → t.owner ≠ u.id →
      ∃ db', Team.remove_member db t (.user u) = (.ok true, db') ∧
        (∀ task, task ∈ db'.tasks ↔
          task ∈ db.tasks ∧ ¬(task.team = t.id ∧ task.assignedTo = u.id)) ∧
        (∀ p, p ∈ db'.memberships ↔ p ∈ db.memberships ∧ p ≠ (t.id, u.id)) ∧
        db'.teams = db.teams ∧ db'.invitations = db.invitations ∧
        db'.users = db.users) := by
  refine ⟨?_, ?_, ?_⟩
  · intro hnm
    simp [Team.remove_member, hres, hnm]
  · intro hm ho
    simp [Team.remove_member, hres, hm, ho]
  · intro hm ho
    have heq : Team.remove_member db t (.user u) =
        (.ok true, { db with
          tasks := db.tasks.filter (fun task => !(task.assignedTo == u.id && task.team == t.id)),
          memberships := db.memberships.filter (fun m => !(m.1 == t.id && m.2 == u.id)) }) := by
      simp [Team.remove_member, Team.remove_task, PyVal.idAttr, hres, hm, ho]
    refine ⟨_, heq, ?_, ?_, rfl, rfl, rfl⟩
    · intro task
      rw [List.mem_filter]
      simp only [Bool.not_eq_true', Bool.and_eq_false_iff, beq_eq_false_iff_ne, ne_eq]
      tauto
    · intro p
      rw [List.mem_filter]
      simp only [Bool.not_eq_true', Bool.and_eq_false_iff, beq_eq_false_iff_ne, ne_eq,
        Prod.ext_iff]
      tauto

/-- C6 witness: on the fixtures, removing a non-member and removing the
owner return `false`; removing the plain member bob returns `true`. -/
theorem removeMember_returns_and_cascade_witness :
    Team.remove_member dbFix teamAlpha (.user carol) = (.ok false, dbFix) ∧
    Team.remove_member dbFix teamAlpha (.user alice) = (.ok false, dbFix) ∧
    (Team.remove_member dbFix teamAlpha (.user bob)).1 = .ok true := by
  refine ⟨?_, ?_, ?_⟩
  · exact (removeMember_returns_and_cascade dbFix teamAlpha carol (by decide)).1 (by decide)
  · exact (removeMember_returns_and_cascade dbFix teamAlpha alice (by decide)).2.1
      (by decide) (by decide)
  · obtain ⟨db', heq, -⟩ := (removeMember_returns_and_cascade dbFix teamAlpha bob
      (by decide)).2.2 (by decide) (by decide)
    rw [heq]

/-!
C9 — deleteTeam: owner check and cascade frame.
-/

/-- C9: `delete_team` returns `false` and leaves the store untouched for
every requester other than the owner; for the owner it deletes the team
row, exactly the invitations and tasks of that team (and that team's
membership rows), and leaves users and everything outside the team
unchanged. -/
theorem deleteTeam_owner_check_and_cascade (db : DB) (t : Team) (u : User) :
    (u.id ≠ t.owner → Team.delete_team db t u = (.ok false, db)) ∧
    (u.id = t.owner →
      ∃ db', Team.delete_team db t u = (.ok true, db') ∧
        (∀ r, r ∈ db'.teams ↔ r ∈ db.teams ∧ r.id ≠ t.id) ∧
        (∀ i, i ∈ db'.invitations ↔ i ∈ db.invitations ∧ i.team ≠ t.id) ∧
        (∀ task, task ∈ db'.tasks ↔ task ∈ db.tasks ∧ task.team ≠ t.id) ∧
        (∀ p, p ∈ db'.memberships ↔ p ∈ db.memberships ∧ p.1 ≠ t.id) ∧
        db'.users = db.users) := by
  constructor
  · intro h
    have hne : ¬ (t.owner = u.id) := fun hc => h hc.symm
    simp [Team.delete_team, hne]
  · intro h
    have heq : Team.delete_team db t u =
        (.ok true, { db with
          teams := db.teams.filter (fun r => !(r.id == t.id)),
          memberships := db.memberships.filter (fun m => !(m.1 == t.id)),
          invitations := db.invitations.filter (fun i => !(i.team == t.id)),
          tasks := db.tasks.filter (fun task => !(task.team == t.id)) }) := by
      simp [Team.delete_team, h.symm]
    refine ⟨_, heq, ?_, ?_, ?_, ?_, rfl⟩
    · intro r
      rw [List.mem_filter]
      simp
    · intro i
      rw [List.mem_filter]
      simp
    · intro task
      rw [List.mem_filter]
      simp
    · intro p
      rw [List.mem_filter]
      simp

/-- C9 witness: bob cannot delete teamAlpha; alice's deletion removes the
team and exactly its rows. -/
theorem deleteTeam_owner_check_and_cascade_witness :
    Team.delete_team dbFix teamAlpha bob = (.ok false, dbFix) ∧
    (∀ r, r ∈ (Team.delete_team dbFix teamAlpha alice).2.teams ↔
      r ∈ dbFix.teams ∧ r.id ≠ teamAlpha.id) := by
  constructor
  · exact (deleteTeam_owner_check_and_cascade dbFix teamAlpha bob).1 (by decide)
  · obtain ⟨db', heq, hteams, -⟩ :=
      (deleteTeam_owner_check_and_cascade dbFix teamAlpha alice).2 rfl
    simp only [heq]
    exact hteams

/-!
C10 — removeMember on a plain string argument raises `AttributeError`.
-/

/-- C10: for every plain username string that names a non-owner current
member, `remove_member` raises `AttributeError` (the cascade step reads
`.id` off the string) instead of returning a boolean, and the store is
unchanged; an `AttributeError` is never produced when the argument is a
`User` object. -/
theorem removeMember_string_attrError (db : DB) (t : Team) (s : String) (u : User)
    (hfind : findUser db s = some u)
    (hmem : u.id ∈ teamMembers db t.id)
    (hown : t.owner ≠ u.id) :
    Team.remove_member db t (.str s) = (.error (.attributeError "id"), db) ∧
    ∀ v : User, (Team.remove_member db t (.user v)).1 ≠ .error (.attributeError "id") := by
  constructor
  · simp [Team.remove_member, getUserByUsername, PyVal.usernameKey, hfind, hmem,
      hown, Team.remove_task, PyVal.idAttr]
  · intro v
    unfold Team.remove_member
    cases hv : getUserByUsername db (.user v) with
    | none => simp
    | some w =>
        simp only
        split
        · split
          · simp
          · simp [Team.remove_task, PyVal.idAttr]
        · simp

/-- C10 witness: removing the member bob by his username string raises
`AttributeError` on the fixture store. -/
theorem removeMember_string_attrError_witness :
    Team.remove_member dbFix teamAlpha (.str "@bob") =
      (.error (.attributeError "id"), dbFix) :=
  (removeMember_string_attrError dbFix teamAlpha "@bob" bob
    (by decide) (by decide) (by decide)).1

/-!
C5 — leaveTeam: the owner is rejected, but with the same error a
non-member gets.
-/

/-- C5 counterexample: on the fixture store the owner's leave attempt and
a non-member's leave attempt produce the identical error message, so the
owner's rejection is not distinct from the not-a-member failure. -/
theorem leaveTeam_error_not_distinct_counterexample :
    alice.id = teamAlpha.owner ∧
    carol.id ∉ teamMembers dbFix teamAlpha.id ∧
    (TeamDetailView.post_leave_team dbFix teamAlpha alice).1 =
      .ok "Owner cannot leave the team." ∧
    (TeamDetailView.post_leave_team dbFix teamAlpha carol).1 =
      .ok "Owner cannot leave the team." :=
  ⟨rfl, by decide, rfl, rfl⟩

/-- C5 amended: the owner's leave attempt is rejected with the reported
error "Owner cannot leave the team." (not a silent no-op) and the store,
in particular the member set, is unchanged; but the code reports that
same error to a non-member attempting to leave, because `remove_member`
returns `false` in both cases and the view cannot tell them apart. -/
theorem leaveTeam_owner_rejected_same_error (db : DB) (t : Team) (u v : User)
    (hu : getUserByUsername db (.user u) = some u) (ho : u.id = t.owner)
    (hv : getUserByUsername db (.user v) = some v)
    (hnm : v.id ∉ teamMembers db t.id) :
    TeamDetailView.post_leave_team db t u = (.ok "Owner cannot leave the team.", db) ∧
    TeamDetailView.post_leave_team db t v = (.ok "Owner cannot leave the team.", db) := by
  constructor
  · unfold TeamDetailView.post_leave_team
    by_cases hmem : u.id ∈ teamMembers db t.id
    · simp [Team.remove_member, hu, hmem, ho.symm]
    · simp [Team.remove_member, hu, hmem]
  · unfold TeamDetailView.post_leave_team
    simp [Team.remove_member, hv, hnm]

/-- C5 witness: the amended statement at the fixture store (alice is the
owner, carol is not a member). -/
theorem leaveTeam_owner_rejected_same_error_witness :
    TeamDetailView.post_leave_team dbFix teamAlpha alice =
      (.ok "Owner cannot leave the team.", dbFix) ∧
    TeamDetailView.post_leave_team dbFix teamAlpha carol =
      (.ok "Owner cannot leave the team.", dbFix) :=
  leaveTeam_owner_rejected_same_error dbFix teamAlpha alice carol
    (by decide) rfl (by decide) (by decide)

/-!
C7 — createTask validation: the due-date check is strict.
-/

/-- C7 counterexample: a task whose due date equals the current instant
passes the due-date validator and is created, refuting "dueDate ≤ now is
rejected". -/
theorem createTask_dueDate_now_counterexample :
    validate_due_date_not_in_past 1000 1000 = .ok () ∧
    (create_task dbFix 1000 "Write report" "" 1000 2 teamAlpha .notStarted 3).1 =
      .ok { id := 203, title := "Write report", description := "", dueDate := 1000,
            assignedTo := 2, team := 10, status := .notStarted, priority := 3 } :=
  ⟨rfl, rfl⟩

/-- C7 amended: task creation fails with `ValidationError` when the due
date is strictly before now (a due date exactly equal to now passes the
validator), when the assignee is not a team member, when the title has no
alphabetic character, when the priority is outside [1,5], or when a
length constraint is violated; with all constraints met (in particular
any future due date) the task is created. -/
theorem createTask_validation (db : DB) (now : Int) (title description : String)
    (dueDate : Int) (assignedTo : Nat) (t : Team) (status : TaskStatus) (priority : Int) :
    (dueDate < now →
      create_task db now title description dueDate assignedTo t status priority =
        (.error (.validationError "invalid task"), db)) ∧
    (assignedTo ∉ teamMembers db t.id →
      create_task db now title description dueDate assignedTo t status priority =
        (.error (.validationError "invalid task"), db)) ∧
    (hasLetter title = false →
      create_task db now title description dueDate assignedTo t status priority =
        (.error (.validationError "invalid task"), db)) ∧
    (priority < 1 ∨ 5 < priority →
      create_task db now title description dueDate assignedTo t status priority =
        (.error (.validationError "invalid task"), db)) ∧
    (50 < title.length ∨ 500 < description.length →
      create_task db now title description dueDate assignedTo t status priority =
        (.error (.validationError "invalid task"), db)) ∧
    (now ≤ dueDate → validate_due_date_not_in_past now dueDate = .ok ()) ∧
    (title.length ≠ 0 → hasLetter title = true → title.length ≤ 50 →
      description.length ≤ 500 → now ≤ dueDate → 1 ≤ priority → priority ≤ 5 →
      assignedTo ∈ teamMembers db t.id →
      create_task db now title description dueDate assignedTo t status priority =
        (.ok { id := db.nextTaskId, title := title, description := description,
               dueDate := dueDate, assignedTo := assignedTo, team := t.id,
               status := status, priority := priority },
         { db with
            tasks := db.tasks ++
              [{ id := db.nextTaskId, title := title, description := description,
                 dueDate := dueDate, assignedTo := assignedTo, team := t.id,
                 status := status, priority := priority }],
            nextTaskId := db.nextTaskId + 1 })) := by
  refine ⟨?_, ?_, ?_, ?_, ?_, ?_, ?_⟩
  · intro h
    have hv : createTaskValid db now title description dueDate assignedTo t.id priority
        = false := by
      simp [createTaskValid, validate_due_date_not_in_past, h]
    simp [create_task, hv]
  · intro h
    have hv : createTaskValid db now title description dueDate assignedTo t.id priority
        = false := by
      simp [createTaskValid, h]
    simp [create_task, hv]
  · intro h
    have hv : createTaskValid db now title description dueDate assignedTo t.id priority
        = false := by
      simp [createTaskValid, h]
    simp [create_task, hv]
  · intro h
    have hv : createTaskValid db now title description dueDate assignedTo t.id priority
        = false := by
      rcases h with h | h
      · simp [createTaskValid, not_le.mpr h]
      · simp [createTaskValid, not_le.mpr h]
    simp [create_task, hv]
  · intro h
    have hv : createTaskValid db now title description dueDate assignedTo t.id priority
        = false := by
      rcases h with h | h
      · simp [createTaskValid, not_le.mpr h]
      · simp [createTaskValid, not_le.mpr h]
    simp [create_task, hv]
  · intro h
    simp [validate_due_date_not_in_past, not_lt.mpr h]
  · intro h0 hl h50 h500 hdd hp1 hp5 hmem
    have hv : createTaskValid db now title description dueDate assignedTo t.id priority
        = true := by
      simp [createTaskValid, validate_due_date_not_in_past, h0, hl, h50, h500,
        not_lt.mpr hdd, hp1, hp5, hmem]
    simp [create_task, hv]

/-- C7 witness: on the fixtures with now = 1000, a due date one day
earlier (86400 seconds before) is rejected, and a valid task due one day
later is created. -/
theorem createTask_validation_witness :
    create_task dbFix 1000 "Write report" "" (-85400) 2 teamAlpha .notStarted 3 =
      (.error (.validationError "invalid task"), dbFix) ∧
    (create_task dbFix 1000 "Write report" "" 87400 2 teamAlpha .notStarted 3).1 =
      .ok { id := 203, title := "Write report", description := "", dueDate := 87400,
            assignedTo := 2, team := 10, status := .notStarted, priority := 3 } := by
  constructor
  · exact (createTask_validation dbFix 1000 "Write report" "" (-85400) 2 teamAlpha
      .notStarted 3).1 (by decide)
  · rw [(createTask_validation dbFix 1000 "Write report" "" 87400 2 teamAlpha
      .notStarted 3).2.2.2.2.2.2 (by decide) (by decide) (by decide) (by decide)
      (by decide) (by decide) (by decide) (by decide)]
    rfl

/-!
C1 — sendInvitation: which checks it actually performs.
-/

/-- The store after bob (who is not the owner of teamAlpha) sends an
invitation to carol. -/
def dbAfterBadInvite : DB :=
  (Team.send_invitation dbFix teamAlpha (.str "@bob") (.str "@carol") none).2

/-- C1 counterexample: a sender who is not the team owner succeeds in
creating an invitation — `send_invitation` performs no InvalidSender
check — and the created row violates the claimed invariant: its sender is
not the team owner, as `Invitation.clean` (which this path never runs)
itself reports. -/
theorem sendInvitation_no_sender_check_counterexample :
    bob.id ≠ teamAlpha.owner ∧
    (Team.send_invitation dbFix teamAlpha (.str "@bob") (.str "@carol") none).1 =
      .ok true ∧
    { id := 101, sender := 2, recipient := 3, team := 10, message := "" }
      ∈ dbAfterBadInvite.invitations ∧
    Invitation.clean dbAfterBadInvite
        { id := 101, sender := 2, recipient := 3, team := 10, message := "" } =
      .error (.validationError "The sender must be the team owner.") :=
  ⟨by decide, rfl, by decide, rfl⟩

/-- C1 amended: `send_invitation` raises `DoesNotExist` when sender or
recipient does not resolve, returns `false` when the recipient is already
a member, raises `IntegrityError` (the `unique_together` constraint) when
an invitation for (recipient, team) already exists, and otherwise creates
the invitation — with no check that the sender is the team owner or
differs from the recipient, so rows with `sender ≠ team.owner` or
`sender = recipient` can be created and the claimed invitation invariant
does not hold. -/
theorem sendInvitation_actual_checks (db : DB) (t : Team) (su ru : PyVal)
    (m : Option String) :
    (getUserByUsername db su = none →
      Team.send_invitation db t su ru m = (.error .doesNotExist, db)) ∧
    (∀ sender, getUserByUsername db su = some sender → getUserByUsername db ru = none →
      Team.send_invitation db t su ru m = (.error .doesNotExist, db)) ∧
    (∀ sender recipient, getUserByUsername db su = some sender →
      getUserByUsername db ru = some recipient →
      (recipient.id ∈ teamMembers db t.id →
        Team.send_invitation db t su ru m = (.ok false, db)) ∧
      (recipient.id ∉ teamMembers db t.id →
        ((∃ i ∈ db.invitations, i.recipient = recipient.id ∧ i.team = t.id) →
          Team.send_invitation db t su ru m = (.error .integrityError, db)) ∧
        ((∀ i ∈ db.invitations, ¬(i.recipient = recipient.id ∧ i.team = t.id)) →
          Team.send_invitation db t su ru m =
            (.ok true, { db with
              invitations := db.invitations ++
                [{ id := db.nextInvitationId, sender := sender.id,
                   recipient := recipient.id, team := t.id, message := m.getD "" }],
              nextInvitationId := db.nextInvitationId + 1 })))) := by
  refine ⟨?_, ?_, ?_⟩
  · intro h
    simp [Team.send_invitation, h]
  · intro sender hs hr
    simp [Team.send_invitation, hs, hr]
  · intro sender recipient hs hr
    constructor
    · intro hmem
      simp [Team.send_invitation, hs, hr, hmem]
    · intro hmem
      constructor
      · intro hdup
        have hany : db.invitations.any
            (fun i => i.recipient == recipient.id && i.team == t.id) = true := by
          rw [List.any_eq_true]
          obtain ⟨i, hi, h1, h2⟩ := hdup
          exact ⟨i, hi, by simp [h1, h2]⟩
        simp [Team.send_invitation, hs, hr, hmem, hany]
      · intro hnodup
        have hany : db.invitations.any
            (fun i => i.recipient == recipient.id && i.team == t.id) = false := by
          rw [Bool.eq_false_iff, Ne, List.any_eq_true]
          rintro ⟨i, hi, hp⟩
          simp only [Bool.and_eq_true, beq_iff_eq] at hp
          exact hnodup i hi ⟨hp.1, hp.2⟩
        simp [Team.send_invitation, hs, hr, hmem, hany]

/-- C1 witness: the actual checks exercised on the fixtures — unknown
recipient raises, inviting the member bob returns false, re-inviting dave
(who has a pending invitation) raises `IntegrityError`, and inviting
carol succeeds. -/
theorem sendInvitation_actual_checks_witness :
    Team.send_invitation dbFix teamAlpha (.str "@alice") (.str "@nobody") none =
      (.error .doesNotExist, dbFix) ∧
    Team.send_invitation dbFix teamAlpha (.str "@alice") (.str "@bob") none =
      (.ok false, dbFix) ∧
    Team.send_invitation dbFix teamAlpha (.str "@alice") (.str "@dave") none =
      (.error .integrityError, dbFix) ∧
    (Team.send_invitation dbFix teamAlpha (.str "@alice") (.str "@carol")
        (some "hi")).1 = .ok true := by
  refine ⟨?_, ?_, ?_, ?_⟩
  · exact (sendInvitation_actual_checks dbFix teamAlpha (.str "@alice") (.str "@nobody")
      none).2.1 alice (by decide) (by decide)
  · exact ((sendInvitation_actual_checks dbFix teamAlpha (.str "@alice") (.str "@bob")
      none).2.2 alice bob (by decide) (by decide)).1 (by decide)
  · exact (((sendInvitation_actual_checks dbFix teamAlpha (.str "@alice") (.str "@dave")
      none).2.2 alice dave (by decide) (by decide)).2 (by decide)).1
      ⟨{ id := 100, sender := 1, recipient := 4, team := 10, message := "join" },
        by decide, rfl, rfl⟩
  · rw [(((sendInvitation_actual_checks dbFix teamAlpha (.str "@alice") (.str "@carol")
      (some "hi")).2.2 alice carol (by decide) (by decide)).2 (by decide)).2
      (by decide)]

/-!
C3 — editTeam: only membership is verified, never ownership.
-/

/-- The store after the non-owner member bob renames teamAlpha. -/
def dbAfterBobEdit : DB :=
  (Team.edit_team dbFix 10 (.user bob) "New Name" "New Desc" none none none).2

/-- C3 counterexample: bob is a member but not the owner of teamAlpha,
the edit view's dispatch lets him through, and his edit is applied: the
persisted team row carries his new name and description. -/
theorem editTeam_no_owner_check_counterexample :
    bob.id ≠ teamAlpha.owner ∧
    EditTeamView.dispatch_allows dbFix 10 bob = true ∧
    (Team.edit_team dbFix 10 (.user bob) "New Name" "New Desc" none none none).1 =
      .ok { teamAlpha with name := "New Name", description := "New Desc" } ∧
    findTeam dbAfterBobEdit 10 =
      some { teamAlpha with name := "New Name", description := "New Desc" } :=
  ⟨by decide, by decide, rfl, by decide⟩

/-- C3 amended: neither `EditTeamView.dispatch` nor `Team.edit_team`
compares the acting user with the team's owner: the view admits any team
member, and the edit of any member (owner or not) persists the new name
and description. -/
theorem editTeam_member_check_only (db : DB) (pk : Nat) (user : User) (t0 : Team)
    (nn nd : String)
    (ht : findTeam db pk = some t0)
    (hu : getUserByUsername db (.user user) = some user)
    (hm : user.id ∈ teamMembers db t0.id) :
    EditTeamView.dispatch_allows db pk user = true ∧
    Team.edit_team db pk (.user user) nn nd none none none =
      (.ok { t0 with name := nn, description := nd },
       saveTeam db { t0 with name := nn, description := nd }) := by
  constructor
  · simp [EditTeamView.dispatch_allows, ht, hm]
  · simp [Team.edit_team, hu, ht, sendInvitationLoop, removeMemberLoop]

/-- C3 witness: the amended statement at the fixture store, applied for
the non-owner member bob. -/
theorem editTeam_member_check_only_witness :
    EditTeamView.dispatch_allows dbFix 10 bob = true ∧
    Team.edit_team dbFix 10 (.user bob) "Renamed" "D2" none none none =
      (.ok { teamAlpha with name := "Renamed", description := "D2" },
       saveTeam dbFix { teamAlpha with name := "Renamed", description := "D2" }) :=
  editTeam_member_check_only dbFix 10 bob teamAlpha "Renamed" "D2"
    (by decide) (by decide) (by decide)

/-!
State invariants and frame lemmas for the operation-level step relation.
-/

/-- Invariant of C2: every team's owner is one of its members. -/
def ownerInvariant (db : DB) : Prop :=
  ∀ t ∈ db.teams, t.owner ∈ teamMembers db t.id

/-- Primary-key uniqueness of the team table. -/
def teamIdsNodup (db : DB) : Prop :=
  (db.teams.map Team.id).Nodup

/-- Invariant of C8: at most one invitation per (recipient, team) pair. -/
def invitationPairsNodup (db : DB) : Prop :=
  (db.invitations.map (fun i => (i.recipient, i.team))).Nodup

instance (db : DB) : Decidable (ownerInvariant db) := by
  unfold ownerInvariant; infer_instance

instance (db : DB) : Decidable (teamIdsNodup db) := by
  unfold teamIdsNodup; infer_instance

instance (db : DB) : Decidable (invitationPairsNodup db) := by
  unfold invitationPairsNodup; infer_instance

/-- `send_invitation` never touches the team table or the membership
table, and it only ever appends to the invitation table under the
no-duplicate-pair guard. -/
theorem send_invitation_frame (db : DB) (t : Team) (su ru : PyVal) (m : Option String) :
    (Team.send_invitation db t su ru m).2.teams = db.teams ∧
    (Team.send_invitation db t su ru m).2.memberships = db.memberships := by
  unfold Team.send_invitation
  cases hs : getUserByUsername db su with
  | none => exact ⟨rfl, rfl⟩
  | some sender =>
    cases hr : getUserByUsername db ru with
    | none => exact ⟨rfl, rfl⟩
    | some recipient =>
      by_cases hmem : recipient.id ∈ teamMembers db t.id
      · simp [hmem]
      · by_cases hany : db.invitations.any
          (fun i => i.recipient == recipient.id && i.team == t.id)
        · simp [hmem, hany]
        · simp [hmem, hany]

/-- The invitation loop never touches the team or membership tables. -/
theorem sendInvitationLoop_frame (t : Team) (su : PyVal) (ms : List PyVal)
    (m : Option String) : ∀ db : DB,
    (sendInvitationLoop db t su ms m).2.teams = db.teams ∧
    (sendInvitationLoop db t su ms m).2.memberships = db.memberships := by
  induction ms with
  | nil => intro db; exact ⟨rfl, rfl⟩
  | cons x rest ih =>
    intro db
    have hf := send_invitation_frame db t su x m
    unfold sendInvitationLoop
    cases hsend : Team.send_invitation db t su x m with
    | mk r db1 =>
      rw [hsend] at hf
      cases r with
      | error e => exact hf
      | ok b =>
        simp only
        exact ⟨(ih db1).1.trans hf.1, (ih db1).2.trans hf.2⟩

/-- `accept_invitation` keeps the team table and only grows memberships. -/
theorem accept_invitation_members_mono (db : DB) (inv : Invitation) (u : User) :
    (Invitation.accept_invitation db inv u).2.teams = db.teams ∧
    ∀ p ∈ db.memberships, p ∈ (Invitation.accept_invitation db inv u).2.memberships := by
  unfold Invitation.accept_invitation
  by_cases h : u.id ≠ inv.recipient
  · rw [if_pos h]
    exact ⟨rfl, fun p hp => hp⟩
  · rw [if_neg h]
    refine ⟨(addMembership_frame db inv.team inv.recipient).2.1, ?_⟩
    intro p hp
    exact mem_addMembership.mpr (Or.inl hp)

/-- `decline_invitation` keeps the team and membership tables. -/
theorem decline_invitation_frame (db : DB) (inv : Invitation) (u : User) :
    (Invitation.decline_invitation db inv u).2.teams = db.teams ∧
    (Invitation.decline_invitation db inv u).2.memberships = db.memberships := by
  unfold Invitation.decline_invitation
  by_cases h : u.id ≠ inv.recipient
  · rw [if_pos h]
    exact ⟨rfl, rfl⟩
  · rw [if_neg h]
    exact ⟨rfl, rfl⟩

/-- `remove_member` keeps the team table; a membership pair disappears
only when it is this team's pair for a user other than this team's owner;
invitations are untouched. -/
theorem remove_member_effect (db : DB) (t : Team) (un : PyVal) :
    (Team.remove_member db t un).2.teams = db.teams ∧
    (∀ p ∈ db.memberships, p ∈ (Team.remove_member db t un).2.memberships ∨
      (p.1 = t.id ∧ p.2 ≠ t.owner)) ∧
    (Team.remove_member db t un).2.invitations = db.invitations := by
  unfold Team.remove_member
  cases hu : getUserByUsername db un with
  | none => exact ⟨rfl, fun p hp => Or.inl hp, rfl⟩
  | some user =>
    dsimp only
    by_cases hmem : user.id ∈ teamMembers db t.id
    · rw [if_pos hmem]
      by_cases ho : t.owner = user.id
      · rw [if_pos ho]
        exact ⟨rfl, fun p hp => Or.inl hp, rfl⟩
      · rw [if_neg ho]
        unfold Team.remove_task
        cases hid : un.idAttr with
        | error e => exact ⟨rfl, fun p hp => Or.inl hp, rfl⟩
        | ok mid =>
          refine ⟨rfl, ?_, rfl⟩
          intro p hp
          by_cases hpq : p.1 = t.id ∧ p.2 = user.id
          · right
            refine ⟨hpq.1, ?_⟩
            rw [hpq.2]
            exact fun hc => ho hc.symm
          · left
            rw [List.mem_filter]
            refine ⟨hp, ?_⟩
            simp only [Bool.not_eq_true', Bool.and_eq_false_iff, beq_eq_false_iff_ne, ne_eq]
            tauto
    · rw [if_neg hmem]
      exact ⟨rfl, fun p hp => Or.inl hp, rfl⟩

/-- The removal loop of `edit_team` has the same membership effect as a
single removal, and also keeps teams and invitations. -/
theorem removeMemberLoop_effect (t : Team) (ms : List PyVal) : ∀ db : DB,
    (removeMemberLoop db t ms).2.teams = db.teams ∧
    (∀ p ∈ db.memberships, p ∈ (removeMemberLoop db t ms).2.memberships ∨
      (p.1 = t.id ∧ p.2 ≠ t.owner)) ∧
    (removeMemberLoop db t ms).2.invitations = db.invitations := by
  induction ms with
  | nil => intro db; exact ⟨rfl, fun p hp => Or.inl hp, rfl⟩
  | cons x rest ih =>
    intro db
    have hf := remove_member_effect db t x
    unfold removeMemberLoop
    cases hrem : Team.remove_member db t x with
    | mk r db1 =>
      rw [hrem] at hf
      cases r with
      | error e => exact hf
      | ok b =>
        simp only
        refine ⟨(ih db1).1.trans hf.1, ?_, (ih db1).2.2.trans hf.2.2⟩
        intro p hp
        rcases hf.2.1 p hp with hp1 | hside
        · rcases (ih db1).2.1 p hp1 with hp2 | hside
          · exact Or.inl hp2
          · exact Or.inr hside
        · exact Or.inr hside

/-- `create_task` only touches the task table. -/
theorem create_task_frame (db : DB) (now : Int) (ti de : String) (dd : Int)
    (a : Nat) (t : Team) (st : TaskStatus) (p : Int) :
    (create_task db now ti de dd a t st p).2.teams = db.teams ∧
    (create_task db now ti de dd a t st p).2.memberships = db.memberships ∧
    (create_task db now ti de dd a t st p).2.invitations = db.invitations := by
  unfold create_task
  by_cases h : createTaskValid db now ti de dd a t.id p = true
  · rw [if_pos h]
    exact ⟨rfl, rfl, rfl⟩
  · rw [if_neg h]
    exact ⟨rfl, rfl, rfl⟩

/-- Equation form of `send_invitation_frame`. -/
theorem send_invitation_frame_eq {db : DB} {t : Team} {su ru : PyVal} {m : Option String}
    {r : Except Err Bool} {db' : DB} (h : Team.send_invitation db t su ru m = (r, db')) :
    db'.teams = db.teams ∧ db'.memberships = db.memberships := by
  have hf := send_invitation_frame db t su ru m
  rw [h] at hf
  exact hf

/-- Equation form of `sendInvitationLoop_frame`. -/
theorem sendInvitationLoop_frame_eq {db : DB} {t : Team} {su : PyVal} {ms : List PyVal}
    {m : Option String} {r : Except Err Unit} {db' : DB}
    (h : sendInvitationLoop db t su ms m = (r, db')) :
    db'.teams = db.teams ∧ db'.memberships = db.memberships := by
  have hf := sendInvitationLoop_frame t su ms m db
  rw [h] at hf
  exact hf

/-- Equation form of `accept_invitation_members_mono`. -/
theorem accept_invitation_members_mono_eq {db : DB} {inv : Invitation} {u : User}
    {r : Except Err Unit} {db' : DB} (h : Invitation.accept_invitation db inv u = (r, db')) :
    db'.teams = db.teams ∧ ∀ p ∈ db.memberships, p ∈ db'.memberships := by
  have hf := accept_invitation_members_mono db inv u
  rw [h] at hf
  exact hf

/-- Equation form of `decline_invitation_frame`. -/
theorem decline_invitation_frame_eq {db : DB} {inv : Invitation} {u : User}
    {r : Except Err Unit} {db' : DB} (h : Invitation.decline_invitation db inv u = (r, db')) :
    db'.teams = db.teams ∧ db'.memberships = db.memberships := by
  have hf := decline_invitation_frame db inv u
  rw [h] at hf
  exact hf

/-- Equation form of `remove_member_effect`. -/
theorem remove_member_effect_eq {db : DB} {t : Team} {un : PyVal}
    {r : Except Err Bool} {db' : DB} (h : Team.remove_member db t un = (r, db')) :
    db'.teams = db.teams ∧
    (∀ p ∈ db.memberships, p ∈ db'.memberships ∨ (p.1 = t.id ∧ p.2 ≠ t.owner)) ∧
    db'.invitations = db.invitations := by
  have hf := remove_member_effect db t un
  rw [h] at hf
  exact hf

/-- Equation form of `removeMemberLoop_effect`. -/
theorem removeMemberLoop_effect_eq {db : DB} {t : Team} {ms : List PyVal}
    {r : Except Err Unit} {db' : DB} (h : removeMemberLoop db t ms = (r, db')) :
    db'.teams = db.teams ∧
    (∀ p ∈ db.memberships, p ∈ db'.memberships ∨ (p.1 = t.id ∧ p.2 ≠ t.owner)) ∧
    db'.invitations = db.invitations := by
  have hf := removeMemberLoop_effect t ms db
  rw [h] at hf
  exact hf

/-- Equation form of `create_task_frame`. -/
theorem create_task_frame_eq {db : DB} {now : Int} {ti de : String} {dd : Int}
    {a : Nat} {t : Team} {st : TaskStatus} {p : Int} {r : Except Err Task} {db' : DB}
    (h : create_task db now ti de dd a t st p = (r, db')) :
    db'.teams = db.teams ∧ db'.memberships = db.memberships ∧
    db'.invitations = db.invitations := by
  have hf := create_task_frame db now ti de dd a t st p
  rw [h] at hf
  exact hf

/-- `delete_team` either leaves the store unchanged or filters out
exactly the deleted team's rows. -/
theorem delete_team_effect_eq {db : DB} {t : Team} {u : User}
    {r : Except Err Bool} {db' : DB} (h : Team.delete_team db t u = (r, db')) :
    (db' = db) ∨
    (db'.teams = db.teams.filter (fun rr => !(rr.id == t.id)) ∧
     db'.memberships = db.memberships.filter (fun m => !(m.1 == t.id)) ∧
     db'.invitations = db.invitations.filter (fun i => !(i.team == t.id))) := by
  unfold Team.delete_team at h
  by_cases ho : t.owner = u.id
  · rw [if_pos ho] at h
    right
    have h2 := congrArg Prod.snd h
    exact ⟨(congrArg DB.teams h2).symm, (congrArg DB.memberships h2).symm,
      (congrArg DB.invitations h2).symm⟩
  · rw [if_neg ho] at h
    exact Or.inl (congrArg Prod.snd h).symm

/-- Owner membership transfers along equal teams and pointwise-included
memberships. -/
theorem ownerInvariant_mono {db db' : DB} (ht : db'.teams = db.teams)
    (hm : ∀ p ∈ db.memberships, p ∈ db'.memberships) (hinv : ownerInvariant db) :
    ownerInvariant db' := by
  intro t htm
  rw [mem_teamMembers]
  exact hm _ (mem_teamMembers.mp (hinv t (ht ▸ htm)))

/-- Two teams of a primary-key-unique store with the same id are equal. -/
theorem team_eq_of_id_eq {db : DB} (hids : teamIdsNodup db) {t1 t2 : Team}
    (h1 : t1 ∈ db.teams) (h2 : t2 ∈ db.teams) (h : t1.id = t2.id) : t1 = t2 := by
  unfold teamIdsNodup at hids
  exact List.inj_on_of_nodup_map hids h1 h2 h

/-- A successful `create_team` returns the new row and a store built by
adding the owner membership to a loop state whose teams are the old ones
plus the new row and whose memberships are the old ones. -/
theorem create_team_ok {db : DB} {n d : String} {o : User} {ms : Option (List PyVal)}
    {msg : Option String} {t : Team} {db' : DB}
    (hc : Team.create_team db n d o ms msg = (.ok t, db')) :
    t = { id := db.nextTeamId, name := n, description := d, owner := o.id } ∧
    ∃ db2 : DB, db2.teams = db.teams ++ [t] ∧ db2.memberships = db.memberships ∧
      db' = addMembership db2 t.id o.id := by
  unfold Team.create_team at hc
  dsimp only at hc
  split at hc
  next e db2 heq => simp at hc
  next u db2 heq =>
    simp only [Prod.mk.injEq, Except.ok.injEq] at hc
    obtain ⟨ht, hdb⟩ := hc
    have hf := sendInvitationLoop_frame_eq heq
    refine ⟨ht.symm, db2, ?_, hf.2, ?_⟩
    · rw [hf.1, ht]
    · rw [← hdb, ← ht]

/-- `Team.edit_team` preserves the owner-is-a-member invariant on a
primary-key-unique store, whatever its arguments and outcome. -/
theorem edit_team_ownerInv {db : DB} {pk : Nat} {ow : PyVal} {nn nd : String}
    {ms : Option (List PyVal)} {msg : Option String} {rm : Option (List PyVal)}
    {r : Except Err Team} {db' : DB}
    (hids : teamIdsNodup db) (hinv : ownerInvariant db)
    (he : Team.edit_team db pk ow nn nd ms msg rm = (r, db')) :
    ownerInvariant db' := by
  unfold Team.edit_team at he
  split at he
  · have hdb : db = db' := congrArg Prod.snd he
    rw [← hdb]
    exact hinv
  next owner howner =>
    split at he
    · have hdb : db = db' := congrArg Prod.snd he
      rw [← hdb]
      exact hinv
    next team0 hteam0 =>
      have hmem0 : team0 ∈ db.teams := List.mem_of_find?_eq_some hteam0
      dsimp only at he
      split at he
      next e db1 heq1 =>
        have hdb : db1 = db' := congrArg Prod.snd he
        rw [← hdb]
        have hf := sendInvitationLoop_frame_eq heq1
        exact ownerInvariant_mono hf.1 (fun p hp => hf.2 ▸ hp) hinv
      next u1 db1 heq1 =>
        have hf1 := sendInvitationLoop_frame_eq heq1
        split at he
        next e db2 heq2 =>
          have hdb : db2 = db' := congrArg Prod.snd he
          rw [← hdb]
          have hf2 := removeMemberLoop_effect_eq heq2
          intro rT hrT
          have hrT0 : rT ∈ db.teams := hf1.1 ▸ hf2.1 ▸ hrT
          have hpair : (rT.id, rT.owner) ∈ db1.memberships :=
            hf1.2 ▸ mem_teamMembers.mp (hinv rT hrT0)
          rw [mem_teamMembers]
          rcases hf2.2.1 _ hpair with h1 | h2
          · exact h1
          · exfalso
            have heqT : rT = team0 := team_eq_of_id_eq hids hrT0 hmem0 h2.1
            exact h2.2 (by rw [heqT])
        next u2 db2 heq2 =>
          have hdb : saveTeam db2 { team0 with name := nn, description := nd } = db' :=
            congrArg Prod.snd he
          rw [← hdb]
          have hf2 := removeMemberLoop_effect_eq heq2
          intro rT hrT
          rw [mem_teamMembers]
          show (rT.id, rT.owner) ∈ db2.memberships
          have hrT1 : rT ∈ db2.teams.map (fun rr =>
              if rr.id == ({ team0 with name := nn, description := nd } : Team).id
              then { team0 with name := nn, description := nd } else rr) := hrT
          rw [List.mem_map] at hrT1
          obtain ⟨rr, hrr, hrreq⟩ := hrT1
          have hrr0 : rr ∈ db.teams := hf1.1 ▸ hf2.1 ▸ hrr
          by_cases hid : (rr.id == ({ team0 with name := nn, description := nd } : Team).id)
            = true
          · rw [if_pos hid] at hrreq
        -- the saved row: its owner is team0's owner, whose pair survives
            have hpair0 : (team0.id, team0.owner) ∈ db1.memberships :=
              hf1.2 ▸ mem_teamMembers.mp (hinv team0 hmem0)
            rcases hf2.2.1 _ hpair0 with h1 | h2
            · rw [← hrreq]
              exact h1
            · exact absurd rfl h2.2
          · rw [if_neg hid] at hrreq
            have hpair0 : (rr.id, rr.owner) ∈ db1.memberships :=
              hf1.2 ▸ mem_teamMembers.mp (hinv rr hrr0)
            rcases hf2.2.1 _ hpair0 with h1 | h2
            · rw [← hrreq]
              exact h1
            · exact absurd (beq_iff_eq.mpr h2.1) hid

/-- One observable operation of the application, as invoked by the views:
team creation that returned the team, team edit, invitation send, accept
and decline, member removal (the view fetches the team from the store,
hence the membership hypothesis), leave (the same `remove_member` call),
team deletion and task creation — each with any outcome, keeping the
partially mutated store when an exception is raised. -/
inductive Step : DB → DB → Prop where
  | createTeam {db db' : DB} (n d : String) (o : User) (ms : Option (List PyVal))
      (msg : Option String) (t : Team)
      (h : Team.create_team db n d o ms msg = (.ok t, db')) : Step db db'
  | editTeam {db db' : DB} (pk : Nat) (ow : PyVal) (nn nd : String)
      (ms : Option (List PyVal)) (msg : Option String) (rm : Option (List PyVal))
      (r : Except Err Team)
      (h : Team.edit_team db pk ow nn nd ms msg rm = (r, db')) : Step db db'
  | sendInvitation {db db' : DB} (t : Team) (su ru : PyVal) (m : Option String)
      (r : Except Err Bool)
      (h : Team.send_invitation db t su ru m = (r, db')) : Step db db'
  | acceptInvitation {db db' : DB} (inv : Invitation) (u : User) (r : Except Err Unit)
      (h : Invitation.accept_invitation db inv u = (r, db')) : Step db db'
  | declineInvitation {db db' : DB} (inv : Invitation) (u : User) (r : Except Err Unit)
      (h : Invitation.decline_invitation db inv u = (r, db')) : Step db db'
  | removeMember {db db' : DB} (t : Team) (un : PyVal) (r : Except Err Bool)
      (hm : t ∈ db.teams)
      (h : Team.remove_member db t un = (r, db')) : Step db db'
  | deleteTeam {db db' : DB} (t : Team) (u : User) (r : Except Err Bool)
      (h : Team.delete_team db t u = (r, db')) : Step db db'
  | createTask {db db' : DB} (now : Int) (ti de : String) (dd : Int) (a : Nat)
      (t : Team) (st : TaskStatus) (p : Int) (r : Except Err Task)
      (h : create_task db now ti de dd a t st p = (r, db')) : Step db db'

/-!
C2 — owner ∈ members at every observable state.
-/

/-- C2: on a store with unique team ids in which every team's owner is a
member, every observable operation — a completed team creation, and team
edit, invitation send, accept, decline, member removal / leave, team
deletion or task creation with any outcome — leads to a store in which
every team's owner is again a member. -/
theorem step_preserves_ownerInvariant {db db' : DB}
    (hids : teamIdsNodup db) (hinv : ownerInvariant db) (h : Step db db') :
    ownerInvariant db' := by
  cases h with
  | createTeam n d o ms msg t hc =>
    obtain ⟨ht, db2, hteams, hms, hdb⟩ := create_team_ok hc
    rw [hdb]
    intro rT hrT
    rw [mem_teamMembers]
    have hrT2 : rT ∈ db2.teams := (addMembership_frame db2 t.id o.id).2.1 ▸ hrT
    rw [hteams, List.mem_append] at hrT2
    rcases hrT2 with hold | hnew
    · exact mem_addMembership.mpr (Or.inl (hms ▸ mem_teamMembers.mp (hinv rT hold)))
    · rw [List.mem_singleton] at hnew
      subst hnew
      rw [ht]
      exact mem_addMembership.mpr (Or.inr rfl)
  | editTeam pk ow nn nd ms msg rm r he =>
    exact edit_team_ownerInv hids hinv he
  | sendInvitation t su ru m r hc =>
    have hf := send_invitation_frame_eq hc
    exact ownerInvariant_mono hf.1 (fun p hp => hf.2 ▸ hp) hinv
  | acceptInvitation inv u r hc =>
    have hf := accept_invitation_members_mono_eq hc
    exact ownerInvariant_mono hf.1 hf.2 hinv
  | declineInvitation inv u r hc =>
    have hf := decline_invitation_frame_eq hc
    exact ownerInvariant_mono hf.1 (fun p hp => hf.2 ▸ hp) hinv
  | removeMember t un r hm hc =>
    have he := remove_member_effect_eq hc
    intro rT hrT
    rw [mem_teamMembers]
    have hrT0 : rT ∈ db.teams := he.1 ▸ hrT
    rcases he.2.1 _ (mem_teamMembers.mp (hinv rT hrT0)) with h1 | h2
    · exact h1
    · exfalso
      have heqT : rT = t := team_eq_of_id_eq hids hrT0 hm h2.1
      exact h2.2 (by rw [heqT])
  | deleteTeam t u r hc =>
    rcases delete_team_effect_eq hc with hdb | heff
    · rw [hdb]
      exact hinv
    · intro rT hrT
      rw [mem_teamMembers, heff.2.1]
      rw [heff.1, List.mem_filter] at hrT
      have hpair := mem_teamMembers.mp (hinv rT hrT.1)
      rw [List.mem_filter]
      exact ⟨hpair, hrT.2⟩
  | createTask now ti de dd a t st p r hc =>
    have hf := create_task_frame_eq hc
    exact ownerInvariant_mono hf.1 (fun p hp => (hf.2.1) ▸ hp) hinv

/-- C2 witness: the invariant holds on the fixture store and is carried
through a concrete accept step. -/
theorem step_preserves_ownerInvariant_witness :
    ownerInvariant (Invitation.accept_invitation dbFix
      { id := 100, sender := 1, recipient := 4, team := 10, message := "join" } dave).2 :=
  step_preserves_ownerInvariant (by decide) (by decide)
    (Step.acceptInvitation
      { id := 100, sender := 1, recipient := 4, team := 10, message := "join" } dave _ rfl)

/-!
C8 — at most one invitation per (recipient, team) pair.
-/

/-- Filtering the invitation table keeps (recipient, team)-uniqueness. -/
theorem pairsNodup_filter {l : List Invitation} {p : Invitation → Bool}
    (h : (l.map (fun i => (i.recipient, i.team))).Nodup) :
    ((l.filter p).map (fun i => (i.recipient, i.team))).Nodup :=
  List.Nodup.sublist (List.Sublist.map _ (List.filter_sublist l)) h

/-- `send_invitation` keeps (recipient, team)-uniqueness: the row is only
appended after the `unique_together` guard found no row with the same
pair. -/
theorem send_invitation_pairs (db : DB) (t : Team) (su ru : PyVal) (m : Option String)
    (h : invitationPairsNodup db) :
    invitationPairsNodup (Team.send_invitation db t su ru m).2 := by
  unfold Team.send_invitation
  cases hs : getUserByUsername db su with
  | none => exact h
  | some sender =>
    cases hr : getUserByUsername db ru with
    | none => exact h
    | some recipient =>
      dsimp only
      by_cases hmem : recipient.id ∈ teamMembers db t.id
      · rw [if_pos hmem]
        exact h
      · rw [if_neg hmem]
        by_cases hany : db.invitations.any
            (fun i => i.recipient == recipient.id && i.team == t.id) = true
        · rw [if_pos hany]
          exact h
        · rw [if_neg hany]
          unfold invitationPairsNodup at h ⊢
          dsimp only
          rw [List.map_append, List.nodup_append]
          refine ⟨h, List.nodup_singleton _, ?_⟩
          intro x hx hx1
          simp only [List.map_cons, List.map_nil, List.mem_singleton] at hx1
          subst hx1
          rw [List.mem_map] at hx
          obtain ⟨i, hi, hxi⟩ := hx
          apply hany
          rw [List.any_eq_true]
          refine ⟨i, hi, ?_⟩
          have h1 : i.recipient = recipient.id := congrArg Prod.fst hxi
          have h2 : i.team = t.id := congrArg Prod.snd hxi
          rw [h1, h2]
          simp

/-- Equation form of `send_invitation_pairs`. -/
theorem send_invitation_pairs_eq {db : DB} {t : Team} {su ru : PyVal} {m : Option String}
    {r : Except Err Bool} {db' : DB} (hc : Team.send_invitation db t su ru m = (r, db'))
    (h : invitationPairsNodup db) : invitationPairsNodup db' := by
  have hp := send_invitation_pairs db t su ru m h
  rw [hc] at hp
  exact hp

/-- The invitation loop keeps (recipient, team)-uniqueness. -/
theorem sendInvitationLoop_pairs (t : Team) (su : PyVal) (ms : List PyVal)
    (m : Option String) : ∀ db, invitationPairsNodup db →
    invitationPairsNodup (sendInvitationLoop db t su ms m).2 := by
  induction ms with
  | nil => exact fun db h => h
  | cons x rest ih =>
    intro db h
    unfold sendInvitationLoop
    cases hsend : Team.send_invitation db t su x m with
    | mk r db1 =>
      have h1 : invitationPairsNodup db1 := send_invitation_pairs_eq hsend h
      cases r with
      | error e => exact h1
      | ok b =>
        dsimp only
        exact ih db1 h1

/-- Equation form of `sendInvitationLoop_pairs`. -/
theorem sendInvitationLoop_pairs_eq {db : DB} {t : Team} {su : PyVal} {ms : List PyVal}
    {m : Option String} {r : Except Err Unit} {db' : DB}
    (hc : sendInvitationLoop db t su ms m = (r, db'))
    (h : invitationPairsNodup db) : invitationPairsNodup db' := by
  have hp := sendInvitationLoop_pairs t su ms m db h
  rw [hc] at hp
  exact hp

/-- `accept_invitation` keeps (recipient, team)-uniqueness: it only
deletes rows. -/
theorem accept_invitation_pairs_eq {db : DB} {inv : Invitation} {u : User}
    {r : Except Err Unit} {db' : DB}
    (hc : Invitation.accept_invitation db inv u = (r, db'))
    (h : invitationPairsNodup db) : invitationPairsNodup db' := by
  unfold Invitation.accept_invitation at hc
  by_cases hu : u.id ≠ inv.recipient
  · rw [if_pos hu] at hc
    have hdb : db = db' := congrArg Prod.snd hc
    rw [← hdb]
    exact h
  · rw [if_neg hu] at hc
    have hdb : _ = db' := congrArg Prod.snd hc
    rw [← hdb]
    unfold invitationPairsNodup
    show (((addMembership db inv.team inv.recipient).invitations.filter
      (fun i => !(i.id == inv.id))).map (fun i => (i.recipient, i.team))).Nodup
    rw [(addMembership_frame db inv.team inv.recipient).2.2.1]
    exact pairsNodup_filter h

/-- `decline_invitation` keeps (recipient, team)-uniqueness. -/
theorem decline_invitation_pairs_eq {db : DB} {inv : Invitation} {u : User}
    {r : Except Err Unit} {db' : DB}
    (hc : Invitation.decline_invitation db inv u = (r, db'))
    (h : invitationPairsNodup db) : invitationPairsNodup db' := by
  unfold Invitation.decline_invitation at hc
  by_cases hu : u.id ≠ inv.recipient
  · rw [if_pos hu] at hc
    have hdb : db = db' := congrArg Prod.snd hc
    rw [← hdb]
    exact h
  · rw [if_neg hu] at hc
    have hdb : _ = db' := congrArg Prod.snd hc
    rw [← hdb]
    exact pairsNodup_filter h

/-- `create_team` keeps (recipient, team)-uniqueness for any outcome. -/
theorem create_team_pairs {db : DB} {n d : String} {o : User} {ms : Option (List PyVal)}
    {msg : Option String} {r : Except Err Team} {db' : DB}
    (hc : Team.create_team db n d o ms msg = (r, db'))
    (h : invitationPairsNodup db) : invitationPairsNodup db' := by
  unfold Team.create_team at hc
  dsimp only at hc
  split at hc
  next e db2 heq =>
    have hdb : db2 = db' := congrArg Prod.snd hc
    rw [← hdb]
    exact sendInvitationLoop_pairs_eq heq h
  next u db2 heq =>
    have hdb : _ = db' := congrArg Prod.snd hc
    rw [← hdb]
    have h2 : invitationPairsNodup db2 := sendInvitationLoop_pairs_eq heq h
    unfold invitationPairsNodup at h2 ⊢
    rw [(addMembership_frame db2 _ o.id).2.2.1]
    exact h2

/-- `edit_team` keeps (recipient, team)-uniqueness for any outcome. -/
theorem edit_team_pairs {db : DB} {pk : Nat} {ow : PyVal} {nn nd : String}
    {ms : Option (List PyVal)} {msg : Option String} {rm : Option (List PyVal)}
    {r : Except Err Team} {db' : DB}
    (he : Team.edit_team db pk ow nn nd ms msg rm = (r, db'))
    (h : invitationPairsNodup db) : invitationPairsNodup db' := by
  unfold Team.edit_team at he
  split at he
  · have hdb : db = db' := congrArg Prod.snd he
    rw [← hdb]
    exact h
  next owner howner =>
    split at he
    · have hdb : db = db' := congrArg Prod.snd he
      rw [← hdb]
      exact h
    next team0 hteam0 =>
      dsimp only at he
      split at he
      next e db1 heq1 =>
        have hdb : db1 = db' := congrArg Prod.snd he
        rw [← hdb]
        exact sendInvitationLoop_pairs_eq heq1 h
      next u1 db1 heq1 =>
        have h1 : invitationPairsNodup db1 := sendInvitationLoop_pairs_eq heq1 h
        split at he
        next e db2 heq2 =>
          have hdb : db2 = db' := congrArg Prod.snd he
          rw [← hdb]
          have hf2 := removeMemberLoop_effect_eq heq2
          unfold invitationPairsNodup at h1 ⊢
          rw [hf2.2.2]
          exact h1
        next u2 db2 heq2 =>
          have hdb : _ = db' := congrArg Prod.snd he
          rw [← hdb]
          have hf2 := removeMemberLoop_effect_eq heq2
          have hsv : (saveTeam db2 { team0 with name := nn, description := nd }).invitations
              = db2.invitations := rfl
          unfold invitationPairsNodup at h1 ⊢
          rw [hsv, hf2.2.2]
          exact h1

/-- C8: every observable operation — send (also the batch sends inside
team create and edit), accept, decline, member removal, team deletion and
task creation — preserves "at most one invitation per (recipient, team)
pair"; the send path is guarded by the `unique_together` constraint and
everything else only deletes invitation rows. -/
theorem step_preserves_invitationUniqueness {db db' : DB}
    (h : invitationPairsNodup db) (hs : Step db db') :
    invitationPairsNodup db' := by
  cases hs with
  | createTeam n d o ms msg t hc => exact create_team_pairs hc h
  | editTeam pk ow nn nd ms msg rm r he => exact edit_team_pairs he h
  | sendInvitation t su ru m r hc => exact send_invitation_pairs_eq hc h
  | acceptInvitation inv u r hc => exact accept_invitation_pairs_eq hc h
  | declineInvitation inv u r hc => exact decline_invitation_pairs_eq hc h
  | removeMember t un r hm hc =>
    have he := remove_member_effect_eq hc
    unfold invitationPairsNodup at h ⊢
    rw [he.2.2]
    exact h
  | deleteTeam t u r hc =>
    rcases delete_team_effect_eq hc with hdb | heff
    · rw [hdb]
      exact h
    · unfold invitationPairsNodup at h ⊢
      rw [heff.2.2]
      exact pairsNodup_filter h
  | createTask now ti de dd a t st p r hc =>
    have hf := create_task_frame_eq hc
    unfold invitationPairsNodup at h ⊢
    rw [hf.2.2]
    exact h

/-- C8 witness: uniqueness holds on the fixture store and is carried
through a concrete successful send step. -/
theorem step_preserves_invitationUniqueness_witness :
    invitationPairsNodup
      (Team.send_invitation dbFix teamAlpha (.str "@alice") (.str "@carol") none).2 :=
  @step_preserves_invitationUniqueness dbFix _ (by decide)
    (Step.sendInvitation teamAlpha (.str "@alice") (.str "@carol") none _ rfl)

end TaskApp
